import Mathlib

/-!
# CryWatchdog — shallow embedding of the Asset Reference Index core

This file embeds, in Lean 4, the core of the CryWatchdog repository:

* `app/config.py`  — the extension tables (`AppConfig`);
* `app/asset_handlers.py` — the XML/MTL attribute handler and the Lua
  string-literal handler (regex-based `parse` / `rewrite`);
* `app/utils.py` and `app/core/utils.py` — the atomic writer's temp-file
  naming;
* `app/watcher.py` — the bidirectional `AssetReferenceIndex` and its
  mutation operations, and the `ChangeHandler` event dispatch.

Modelling conventions:

* Python strings are `String` / `List Char` (file content is `List Char`).
  All paths in the model are project-relative POSIX strings, as produced by
  `Path.relative_to(root).as_posix()` in the source; the absolute project
  root is fixed and therefore dropped.
* `os.path.sep` is modelled as the backslash character (the tool targets
  Windows: `creationflags=subprocess.CREATE_NO_WINDOW if os.name == "nt"`);
  on POSIX hosts `replace(os.path.sep, "/")` is the identity, and every
  concrete input below is backslash-free, so nothing depends on the choice.
* `str.lower`/`str.strip` are modelled for ASCII data (paths in this
  program are ASCII); Python `\s` is the six ASCII whitespace characters.
* `dict`/`set` of the index are modelled by membership semantics: a map
  `String → Finset String` where an absent key is the empty set.  Python
  key-presence guards that are membership no-ops are noted per operation.
* Wall-clock instants (`time.time()` values) are modelled as integers:
  every comparison the code performs (`t < deadline`, `t - del_time < 1.0`,
  `t + 2.0`) is order-faithful under this abstraction, and kernel
  reduction stays available for concrete scenarios.
-/

namespace CryWatchdog

/-- The double-quote character (written via its code point to keep string
content out of the identifier stream). -/
def dquote : Char := Char.ofNat 34

/-- The single-quote character. -/
def squote : Char := Char.ofNat 39

/-- The backslash character, modelling `os.path.sep` on Windows. -/
def bslash : Char := Char.ofNat 92

/-- Python `\s` (ASCII): space, tab, newline, carriage return, vertical tab,
form feed. -/
def isPySpace (c : Char) : Bool :=
  c = ' ' ∨ c = Char.ofNat 9 ∨ c = Char.ofNat 10 ∨ c = Char.ofNat 13 ∨
  c = Char.ofNat 11 ∨ c = Char.ofNat 12

/-- Python `str.lower()` on ASCII path data. -/
def lowerL (l : List Char) : List Char := l.map Char.toLower

/-- Python `str.lower()` on a `String`. -/
def strLower (s : String) : String := ⟨lowerL s.data⟩

/-- Python `str.strip()`: remove whitespace from both ends. -/
def stripL (l : List Char) : List Char :=
  ((l.dropWhile isPySpace).reverse.dropWhile isPySpace).reverse

/-- Python `.replace(os.path.sep, "/")` (with `os.path.sep = "\\"`). -/
def normSlash (l : List Char) : List Char :=
  l.map (fun c => if c = bslash then '/' else c)

/-- `pathlib.PurePath.name`: the component after the last slash. -/
def nameOf (l : List Char) : List Char :=
  (l.reverse.takeWhile (fun c => c ≠ '/')).reverse

/-- The directory part complementary to `nameOf` (keeps the trailing slash). -/
def dirOf (l : List Char) : List Char :=
  (l.reverse.dropWhile (fun c => c ≠ '/')).reverse

/-- `pathlib.PurePath.suffix` of a name: chars from the last dot, provided
the dot is neither the first nor the last character of the name
(`name[i:] if 0 < i < len(name) - 1 else ""`). -/
def suffixOfName (name : List Char) : List Char :=
  let tail := name.reverse.takeWhile (fun c => c ≠ '.')
  if tail.length = name.length then []          -- no dot in the name
  else
    let i := name.length - tail.length - 1      -- index of the last dot
    if 0 < i ∧ i < name.length - 1 then name.drop i else []

/-- `Path(p).suffix` for a POSIX relative path string. -/
def pySuffix (p : String) : String := ⟨suffixOfName (nameOf p.data)⟩

/-- `Path(p).with_suffix(s).as_posix()`: drop the old suffix of the name and
append `s`.  (pathlib raises for an empty name or an invalid `s`; the
callers below always pass a nonempty name and a dot-initial `s`.) -/
def pyWithSuffix (p : String) (s : String) : String :=
  let name := nameOf p.data
  let old := suffixOfName name
  ⟨dirOf p.data ++ (name.take (name.length - old.length)) ++ s.data⟩

/-- `Path(p).with_suffix("").as_posix()` — the path minus its suffix, used
by `update_asset_path` as the stem of variant expansion. -/
def pyStem (p : String) : String := pyWithSuffix p ""

/-! ## Configuration (`app/config.py`)

`DEFAULT_TEXTURE_EXTS` is a Python `set` literal; its iteration order is
unspecified, so the list below fixes the literal's textual order (every
result proven below is independent of this order). `DEFAULT_TRACKED_EXTS`
is a Python `list`, whose order is as written. -/

/-- `AppConfig.TEXTURE_EXTENSIONS` (default configuration). -/
def TEXTURE_EXTENSIONS : List String :=
  [".dds", ".tif", ".tiff", ".png", ".jpg", ".jpeg", ".tga", ".bmp",
   ".gif", ".hdr", ".exr", ".gfx"]

/-- `AppConfig.TRACKED_ASSET_EXTENSIONS` (default configuration). -/
def TRACKED_ASSET_EXTENSIONS : List String :=
  [".dds", ".tif", ".png", ".jpg", ".jpeg", ".tga", ".bmp", ".gif",
   ".hdr", ".mtl", ".xml", ".lay", ".lyr", ".cdf", ".lua", ".cgf",
   ".chr", ".cga", ".skin", ".adb"]

/-- The extensions registered to `XmlAssetHandler` in `ASSET_HANDLERS`. -/
def xmlHandlerExts : List String := [".mtl", ".xml", ".lay", ".lyr", ".cdf"]

/-- The keys of `ASSET_HANDLERS` — the container extensions. -/
def containerExts : List String := [".mtl", ".xml", ".lay", ".lyr", ".cdf", ".lua"]

/-! ## The XML/MTL attribute handler (`app/asset_handlers.py`, XmlAssetHandler)

The handler is regex-based.  The text regex used by `rewrite` is

```
((?:File|Texture|filename|path|Material)\s*=\s*)(["\'])([^"\']+(?:EXTS))\2
```

with `re.IGNORECASE`, where `EXTS` is the alternation of the escaped
`TRACKED_ASSET_EXTENSIONS`; `_BYTES_REGEX` used by `parse` is the same
pattern with the prefix group dropped.  Because `[^"\']+` cannot cross a
quote and every extension is quote-free, a successful match at a position
is exactly: one of the five keys (case-insensitive), `\s*`, `=`, `\s*`, a
quote `q`, then the maximal run of non-quote characters, which must be
followed by `q` again, end (case-insensitively) in a tracked extension and
be strictly longer than that extension.  Backtracking cannot produce any
other extent, since ending the value group earlier would require a quote
character inside the quote-free run.  The scanner below implements exactly
this characterisation, advancing one character on failure as `re.sub`
does. -/

/-- Is `c` one of the two quote characters of the regex quote class? -/
def isQuoteCh (c : Char) : Bool := c = dquote ∨ c = squote

/-- The five attribute keys of the regex, in alternation order. -/
def xmlKeys : List (List Char) :=
  ["File".data, "Texture".data, "filename".data, "path".data, "Material".data]

/-- A single regex match: `pre` is capture group 1 (key, whitespace, `=`,
whitespace, in original case), `quote` group 2, `value` group 3. -/
structure XmlMatch where
  pre : List Char
  quote : Char
  value : List Char
  deriving DecidableEq, Repr

/-- The span of text a match occupies: `pre ++ quote ++ value ++ quote`. -/
def XmlMatch.render (m : XmlMatch) : List Char :=
  m.pre ++ m.quote :: (m.value ++ [m.quote])

/-- `[^"']+(?:EXTS)` can consume the whole quote-free run iff the run ends
(case-insensitively) in some tracked extension and is strictly longer than
it (the `+` needs at least one character before the extension). -/
def valueHasTrackedExt (run : List Char) : Bool :=
  TRACKED_ASSET_EXTENSIONS.any fun e =>
    e.data.length < run.length ∧ (lowerL e.data).isSuffixOf (lowerL run)

/-- Case-insensitive literal prefix match for one key alternative; returns
the consumed original-case characters and the remainder. -/
def matchKeyAt (key : List Char) (cs : List Char) : Option (List Char × List Char) :=
  let pre := cs.take key.length
  if pre.length = key.length ∧ lowerL pre = lowerL key then
    some (pre, cs.drop key.length)
  else none

/-- After a key alternative: `\s* = \s* q run q` with the run and quote
conditions above.  Returns (consumed ws-equals-ws part, quote, value,
rest). -/
def matchAfterKey (cs : List Char) : Option (List Char × Char × List Char × List Char) :=
  let ws1 := cs.takeWhile isPySpace
  match cs.dropWhile isPySpace with
  | [] => none
  | c :: r2 =>
    if c = '=' then
      let ws2 := r2.takeWhile isPySpace
      match r2.dropWhile isPySpace with
      | [] => none
      | q :: r4 =>
        if isQuoteCh q then
          let run := r4.takeWhile (fun c => ¬ isQuoteCh c)
          match r4.dropWhile (fun c => ¬ isQuoteCh c) with
          | [] => none
          | q2 :: rest =>
            if q2 = q ∧ valueHasTrackedExt run then
              some (ws1 ++ '=' :: ws2, q, run, rest)
            else none
        else none
    else none

/-- One attempt of the full pattern at the head of `cs`: the alternation
tries the five keys in order; the rest of the pattern is deterministic. -/
def xmlTryMatch (cs : List Char) : Option (XmlMatch × List Char) :=
  xmlKeys.findSome? fun key =>
    match matchKeyAt key cs with
    | some (pre, r) =>
      (matchAfterKey r).map fun x =>
        ({ pre := pre ++ x.1, quote := x.2.1, value := x.2.2.1 }, x.2.2.2)
    | none => none

/-- A segment of scanned content: an unmatched character, or one match. -/
inductive Seg where
  | raw : Char → Seg
  | mtch : XmlMatch → Seg
  deriving DecidableEq, Repr

/-- The text a segment stands for. -/
def Seg.render : Seg → List Char
  | .raw c => [c]
  | .mtch m => m.render

/-- The text a segment list stands for. -/
def renderSegs (segs : List Seg) : List Char := segs.flatMap Seg.render

/-- The scan underlying `pattern.finditer` / `pattern.sub`: try a match at
every position, left to right, consuming matches whole.  `fuel` bounds the
recursion; it is instantiated with the content length (each step consumes
at least one character). -/
def xmlScanGo : Nat → List Char → List Seg
  | 0, cs => cs.map Seg.raw
  | _ + 1, [] => []
  | fuel + 1, c :: cs =>
    match xmlTryMatch (c :: cs) with
    | some (m, rest) => Seg.mtch m :: xmlScanGo fuel rest
    | none => Seg.raw c :: xmlScanGo fuel cs

/-- All matches of the handler regex in `cs`, with the unmatched text. -/
def xmlScan (cs : List Char) : List Seg := xmlScanGo cs.length cs

/-- `XmlAssetHandler.parse` (lines 58–81): collect group 2 of every match of
`_BYTES_REGEX`, normalise each (`strip`, `os.path.sep → "/"`), and lower
the whole set.  (`_BYTES_REGEX` is the same pattern as the rewrite regex
with the prefix group dropped, so it has the same match spans; the UTF-8
lossy decode is the identity on the decoded text modelled here.  The
`st_size == 0` early return agrees with scanning the empty content.) -/
def xmlParse (cs : List Char) : Finset String :=
  ((xmlScan cs).filterMap fun s =>
    match s with
    | .raw _ => none
    | .mtch m => some (String.mk (lowerL (normSlash (stripL m.value))))).toFinset

/-- The `replace_callback` of `XmlAssetHandler.rewrite` (lines 96–120),
acting on one match.  `repl` is the `replacements` dict as an association
list in insertion order (its lowered keys are pairwise distinct at every
call site, so first-match lookup agrees with the Python dict built by
`{k.lower(): v for k, v in replacements.items()}`).  The `if new_val:`
truthiness test makes an empty replacement string behave as no match. -/
def xmlApplyMatch (repl : List (String × String)) (isDirMove : Bool)
    (m : XmlMatch) : XmlMatch :=
  let pnorm := normSlash (stripL m.value)
  let plower := lowerL pnorm
  let newVal : Option (List Char) :=
    if isDirMove then
      -- `old_dir, new_dir = next(iter(replacements.items()))` (one entry)
      match repl.head? with
      | some (od, nd) =>
        if (lowerL od.data ++ ['/']).isPrefixOf plower then
          some (nd.data ++ pnorm.drop od.data.length)
        else none
      | none => none
    else
      (repl.map fun p => (lowerL p.1.data, p.2.data)).lookup plower
  match newVal with
  | some w => if w ≠ [] then { m with value := w } else m
  | none => m

/-- `xmlApplyMatch` lifted to segments: raw text is emitted verbatim. -/
def xmlApplySeg (repl : List (String × String)) (isDirMove : Bool) : Seg → Seg
  | .raw c => .raw c
  | .mtch m => .mtch (xmlApplyMatch repl isDirMove m)

/-- `pattern.sub(replace_callback, content)` (line 133): one left-to-right
pass, substituting each match through the callback and copying unmatched
characters. -/
def xmlSubGo (repl : List (String × String)) (isDirMove : Bool) :
    Nat → List Char → List Char
  | 0, cs => cs
  | _ + 1, [] => []
  | fuel + 1, c :: cs =>
    match xmlTryMatch (c :: cs) with
    | some (m, rest) =>
      (xmlApplyMatch repl isDirMove m).render ++ xmlSubGo repl isDirMove fuel rest
    | none => c :: xmlSubGo repl isDirMove fuel cs

/-- The new content produced by `XmlAssetHandler.rewrite` (the handler then
writes it through the atomic writer only when it differs from the
original). -/
def xmlRewriteContent (repl : List (String × String)) (isDirMove : Bool)
    (cs : List Char) : List Char :=
  xmlSubGo repl isDirMove cs.length cs

/-! ## The Lua string-literal handler (`app/asset_handlers.py`, LuaAssetHandler)

`_TEXT_REGEX` is `(['"])([^'"]+\.(?:EXTS))\1` with the extensions stripped
of their leading dot.  The same quote-run analysis as for the XML pattern
applies: a match is a quote, the maximal quote-free run, the same quote
again, where the run ends (case-insensitively) in `.` + extension with at
least one character before the dot. -/

/-- `[^'"]+\.(?:EXTS)` consumes the whole run iff it ends in a dot plus a
tracked extension (leading dots stripped: `ext.lstrip(".")`). -/
def luaValueOk (run : List Char) : Bool :=
  TRACKED_ASSET_EXTENSIONS.any fun e =>
    e.data.length < run.length ∧ (lowerL e.data).isSuffixOf (lowerL run)

/-- One attempt of the Lua pattern at the head of `cs`. -/
def luaTryMatch (cs : List Char) : Option (Char × List Char × List Char) :=
  match cs with
  | [] => none
  | q :: r =>
    if isQuoteCh q then
      let run := r.takeWhile (fun c => ¬ isQuoteCh c)
      match r.dropWhile (fun c => ¬ isQuoteCh c) with
      | [] => none
      | q2 :: rest =>
        if q2 = q ∧ luaValueOk run then some (q, run, rest) else none
    else none

/-- The `replacer` callback of `LuaAssetHandler.rewrite` (lines 186–201).
Unlike the XML callback it does not `strip()` the value. -/
def luaApplyValue (repl : List (String × String)) (isDirMove : Bool)
    (v : List Char) : List Char :=
  let pnorm := normSlash v
  let plower := lowerL pnorm
  let newVal : Option (List Char) :=
    if isDirMove then
      match repl.head? with
      | some (od, nd) =>
        if (lowerL od.data ++ ['/']).isPrefixOf plower then
          some (nd.data ++ pnorm.drop od.data.length)
        else none
      | none => none
    else
      (repl.map fun p => (lowerL p.1.data, p.2.data)).lookup plower
  match newVal with
  | some w => if w ≠ [] then w else v
  | none => v

/-- `LuaAssetHandler.rewrite`'s `_TEXT_REGEX.sub(replacer, content)`. -/
def luaSubGo (repl : List (String × String)) (isDirMove : Bool) :
    Nat → List Char → List Char
  | 0, cs => cs
  | _ + 1, [] => []
  | fuel + 1, c :: cs =>
    match luaTryMatch (c :: cs) with
    | some (q, run, rest) =>
      q :: (luaApplyValue repl isDirMove run ++ [q]) ++ luaSubGo repl isDirMove fuel rest
    | none => c :: luaSubGo repl isDirMove fuel cs

/-- The new content produced by `LuaAssetHandler.rewrite`. -/
def luaRewriteContent (repl : List (String × String)) (isDirMove : Bool)
    (cs : List Char) : List Char :=
  luaSubGo repl isDirMove cs.length cs

/-- The value groups of all matches of `LuaAssetHandler._BYTES_REGEX`
(same pattern as `_TEXT_REGEX`), in scan order. -/
def luaCollectGo : Nat → List Char → List (List Char)
  | 0, _ => []
  | _ + 1, [] => []
  | fuel + 1, c :: cs =>
    match luaTryMatch (c :: cs) with
    | some x => x.2.1 :: luaCollectGo fuel x.2.2
    | none => luaCollectGo fuel cs

/-- `LuaAssetHandler.parse` (lines 163–177): collect each quoted literal
ending in a tracked extension, normalised by `strip`, separator
replacement and lowering. -/
def luaParse (cs : List Char) : Finset String :=
  ((luaCollectGo cs.length cs).map fun v =>
    String.mk (lowerL (normSlash (stripL v)))).toFinset

/-- `ASSET_HANDLERS.get(Path(rel).suffix.lower())` followed by
`Handler.rewrite` — the per-container dispatch of `update_asset_path`
(watcher.py lines 196–199); a container without a handler is skipped. -/
def handlerRewrite (c : String) (repl : List (String × String))
    (isDirMove : Bool) (content : List Char) : List Char :=
  if strLower (pySuffix c) ∈ xmlHandlerExts then xmlRewriteContent repl isDirMove content
  else if strLower (pySuffix c) = ".lua" then luaRewriteContent repl isDirMove content
  else content

/-- `Handler.parse` dispatch (used to compare disk with the index); a path
without a registered handler has no parse (the callers never ask for
one). -/
def handlerParse (c : String) (content : List Char) : Finset String :=
  if strLower (pySuffix c) ∈ xmlHandlerExts then xmlParse content
  else if strLower (pySuffix c) = ".lua" then luaParse content
  else ∅

/-! ## The atomic writer (`app/utils.py` vs `app/core/utils.py`)

`app/asset_handlers.py` (the handlers driven by the watcher) imports
`atomic_write` from `app.utils` (line 10), whose temp path is
`file_path.with_suffix(file_path.suffix + ".tmp")` (line 95).
`app/core/utils.py` has a second `atomic_write` whose temp path is
`file_path.with_suffix(f"{file_path.suffix}.{pid}.tmp")` (line 58); it is
imported by `app/services/asset_handlers.py` and the batch tasks, not by
the watcher's handlers. -/

/-- Temp-file name of `app/utils.atomic_write` (no pid). -/
def utilsTempName (p : String) : String :=
  pyWithSuffix p (pySuffix p ++ ".tmp")

/-- Temp-file name of `app/core/utils.atomic_write` (pid-suffixed). -/
def coreUtilsTempName (p : String) (pid : Nat) : String :=
  pyWithSuffix p (pySuffix p ++ "." ++ toString pid ++ ".tmp")

/-! ## The reference index (`app/watcher.py`, AssetReferenceIndex)

`container_to_references` / `reference_to_containers` are
`defaultdict(set)`; both are modelled by their membership semantics as
total maps `String → Finset String` in which an absent key is the empty
set.  Deleting an emptied entry (`del self.reference_to_containers[ref]`)
and `defaultdict` key materialisation are membership no-ops and disappear
in this representation; every such point is noted on the operation that
contains it. -/

structure RefIndex where
  /-- `container_to_references` (forward map). -/
  forward : String → Finset String
  /-- `reference_to_containers` (reverse map). -/
  reverse : String → Finset String

/-- The freshly constructed index (`__init__`, lines 64–65). -/
def emptyIndex : RefIndex := ⟨fun _ => ∅, fun _ => ∅⟩

/-- The options read from `watcher_options` by `AssetReferenceIndex.__init__`
(lines 57–59).  Note `__init__` reads only these three keys; in particular
a `dry_run` key in the dict is never read by the index. -/
structure IndexOpts where
  allowExtensionChange : Bool := true
  allowDirectoryChange : Bool := true
  matchAnyTextureExtension : Bool := true

/-- The `watcher_options` dict assembled by `MainWindow._start_watching`
(app/main_window.py lines 136–144, 272): four checkbox values.  Only the
three read by `__init__` reach the index. -/
structure WatcherOptions where
  matchAnyTextureExtension : Bool := true
  allowExtChange : Bool := true
  allowDirChange : Bool := true
  dryRun : Bool := false

/-- `AssetReferenceIndex(root, signals, **watcher_options)`: the kwargs
lookup of `__init__` — `dry_run` is dropped on the floor. -/
def indexOptsOf (w : WatcherOptions) : IndexOpts :=
  { allowExtensionChange := w.allowExtChange
    allowDirectoryChange := w.allowDirChange
    matchAnyTextureExtension := w.matchAnyTextureExtension }

/-- `build_index` population (lines 90–96) for one parsed result:
`container_to_references[c] = refs` then `reference_to_containers[ref].add(c)`
for each ref. -/
def buildStep (st : RefIndex) (p : String × Finset String) : RefIndex :=
  { forward := fun c => if c = p.1 then p.2 else st.forward c
    reverse := fun r => if r ∈ p.2 then insert p.1 (st.reverse r) else st.reverse r }

/-- `build_index` (lines 77–101).  `files` is the worker output for the
container files found on disk: `(rel_path, some refs)` for a parsed file,
`(rel_path, none)` for an unreadable one (filtered out, line 88).  When no
container files are found the method returns early *without clearing the
maps* (lines 82–84); otherwise both maps are cleared and repopulated. -/
def buildIndex (files : List (String × Option (Finset String))) (st : RefIndex) :
    RefIndex :=
  if files = [] then st
  else (files.filterMap fun p => p.2.map (p.1, ·)).foldl buildStep emptyIndex

/-- `_index_parse_worker` (lines 20–45), parametrised by the filesystem
facts it observes: whether the file exists, its `st_size`, and what
`Handler.parse` would return.  The retry loop's condition is stable in
this pure model, so ten retries collapse to one test; an existing file of
size 0 (or a vanished or persistently locked one) yields `none`, the
"keep old data" signal. -/
def indexParseWorker (fileExists : Bool) (size : Nat)
    (parseResult : Finset String) : Option (Finset String) :=
  if fileExists ∧ 0 < size then some parseResult else none

/-- `process_container_file` (lines 103–129): on cooldown or an unreadable
file, leave the index alone; otherwise remove the container from the
reverse entries of its old references and overwrite with the new set.
The `if container_rel_path in self.container_to_references` guard and the
deletion of emptied reverse entries are membership no-ops. -/
def upsertContainer (c : String) (refs : Finset String) (st : RefIndex) : RefIndex :=
  { forward := fun c' => if c' = c then refs else st.forward c'
    reverse := fun r =>
      (if r ∈ st.forward c then (st.reverse r).erase c else st.reverse r) ∪
        (if r ∈ refs then {c} else ∅) }

/-- `process_container_file` including its guards (cooldown, worker result). -/
def processContainerFile (onCooldown : Bool) (workerResult : Option (Finset String))
    (c : String) (st : RefIndex) : RefIndex :=
  if onCooldown then st
  else
    match workerResult with
    | none => st
    | some refs => upsertContainer c refs st

/-- `remove_container_from_index` (lines 131–147), past its cooldown guard:
pop the forward entry and discard the container from the reverse entry of
each of its references (deleting emptied entries — a membership no-op). -/
def dropContainer (c : String) (st : RefIndex) : RefIndex :=
  { forward := fun c' => if c' = c then ∅ else st.forward c'
    reverse := fun r =>
      if r ∈ st.forward c then (st.reverse r).erase c else st.reverse r }

/-! ### `update_asset_path` (lines 149–214) -/

/-- The candidate data computed in lines 154–179: the `replacements` dict in
insertion order (original case) — the lowered old/new variant sets are its
lowered first/second projections.  `old_abs_path.suffix` equals the
relative path's suffix (same final name component).  The texture loop
iterates a Python `set`; the fixed list order here is harmless because
every consumer is order-insensitive.  Note the only option consulted is
`match_any_texture_extension` — `self.allow_extension_change`, although
stored by `__init__`, is never read. -/
def renamePairs (opts : IndexOpts) (oldRel newRel : String) : List (String × String) :=
  let isTexture := strLower (pySuffix oldRel) ∈ TEXTURE_EXTENSIONS
  let base :=
    if opts.matchAnyTextureExtension ∧ isTexture then
      TEXTURE_EXTENSIONS.map fun ext => (pyStem oldRel ++ ext, pyStem newRel ++ ext)
    else [(oldRel, newRel)]
  let extra :=
    if strLower (pySuffix oldRel) = ".mtl" then [(pyStem oldRel, pyStem newRel)]
    else []
  base ++ extra

/-- `old_variants` (lowered). -/
def oldVariantsOf (opts : IndexOpts) (oldRel newRel : String) : List String :=
  (renamePairs opts oldRel newRel).map fun p => strLower p.1

/-- `new_variants` (lowered). -/
def newVariantsOf (opts : IndexOpts) (oldRel newRel : String) : List String :=
  (renamePairs opts oldRel newRel).map fun p => strLower p.2

/-- `affected_containers` (lines 182–185): the union of the reverse entries
of the old variants. -/
def affectedOf (olds : List String) (st : RefIndex) : Finset String :=
  olds.foldr (fun v acc => st.reverse v ∪ acc) ∅

/-- One iteration of the reverse-map move loop (lines 205–209):
`containers_to_move = reverse.pop(old_v)` then
`reverse[new_v].update(containers_to_move)` for every new variant.  The
`if old_v in self.reference_to_containers` guard is a membership no-op
(popping an absent key moves the empty set). -/
def popMove (newVs : List String) (R : String → Finset String) (v : String) :
    String → Finset String :=
  fun w =>
    let moved := R v
    let popped := if w = v then (∅ : Finset String) else R w
    if w ∈ newVs then popped ∪ moved else popped

/-- The index portion of `update_asset_path` (lines 181–214).  If no
container references any old variant the method returns early (lines
187–189).  Otherwise the reverse entries of the old variants are moved
under every new variant, and each affected container's forward entry has
the old variants subtracted and all new variants added (the
`if container in self.container_to_references` guard never skips on an
index satisfying the bidirectional invariant, since an affected container
has a nonempty forward entry; it is modelled unguarded). -/
def updateAssetIndex (opts : IndexOpts) (oldRel newRel : String) (st : RefIndex) :
    RefIndex :=
  let olds := oldVariantsOf opts oldRel newRel
  let news := newVariantsOf opts oldRel newRel
  let A := affectedOf olds st
  if A = ∅ then st
  else
    { forward := fun c =>
        if c ∈ A then (st.forward c \ olds.toFinset) ∪ news.toFinset
        else st.forward c
      reverse := olds.foldl (popMove news) st.reverse }

/-- `update_asset_path` with its path-relativisation guard (lines 150–152):
the caller passes absolute paths; both must be inside the project root.
In this model paths are already project-relative, so the guard reduces to
non-emptiness and is carried by callers. -/
def updateAssetPathIndex (opts : IndexOpts) (oldRel newRel : Option String)
    (st : RefIndex) : RefIndex :=
  match oldRel, newRel with
  | some o, some n => updateAssetIndex opts o n st
  | _, _ => st

/-! ### `handle_directory_move` (lines 216–247)

When `allow_dir_change` is set and at least one container holds a
reference under the old directory prefix, every affected container is
rewritten with a single `{old_dir: new_dir}` replacement and then
`build_index()` re-walks the tree and rebuilds both maps from disk;
otherwise nothing happens.  The rebuild is modelled by `buildIndex` on the
worker results of the re-walk. -/
def dirMoveIndex (allowDir : Bool) (anyAffected : Bool)
    (files : List (String × Option (Finset String))) (st : RefIndex) : RefIndex :=
  if allowDir ∧ anyAffected then buildIndex files st else st

/-! ### Reachability (the operations of claim C1) -/

/-- One index mutation, as dispatched by `ChangeHandler`/`WatcherService`.
Cooldown-skipped events leave the state unchanged and need no case of
their own.  `build`/`dirmove` carry the worker results of a disk walk;
the walked container files are pairwise distinct paths. -/
inductive IndexStep : RefIndex → RefIndex → Prop
  | build (files : List (String × Option (Finset String)))
      (hnd : (files.map Prod.fst).Nodup) (st : RefIndex) :
      IndexStep st (buildIndex files st)
  | upsert (cd : Bool) (res : Option (Finset String)) (c : String) (st : RefIndex) :
      IndexStep st (processContainerFile cd res c st)
  | drop (c : String) (st : RefIndex) : IndexStep st (dropContainer c st)
  | rename (opts : IndexOpts) (o n : String) (st : RefIndex) :
      IndexStep st (updateAssetIndex opts o n st)
  | dirmove (allowDir anyAffected : Bool)
      (files : List (String × Option (Finset String)))
      (hnd : (files.map Prod.fst).Nodup) (st : RefIndex) :
      IndexStep st (dirMoveIndex allowDir anyAffected files st)

/-- Index states reachable from the fresh index by watcher operations. -/
inductive ReachableIndex : RefIndex → Prop
  | empty : ReachableIndex emptyIndex
  | step {st st' : RefIndex} : ReachableIndex st → IndexStep st st' →
      ReachableIndex st'

/-- The bidirectional-consistency invariant of the spec:
`c ∈ reverse[r] ⇔ r ∈ forward[c]`. -/
def Bidirectional (st : RefIndex) : Prop :=
  ∀ c r, c ∈ st.reverse r ↔ r ∈ st.forward c

/-! ### Preservation of bidirectional consistency, operation by operation -/

theorem bidir_empty : Bidirectional emptyIndex := by
  intro c r
  simp [emptyIndex, RefIndex.forward, RefIndex.reverse]

theorem bidir_buildFold (l : List (String × Finset String)) :
    ∀ (st : RefIndex), Bidirectional st → (∀ p ∈ l, st.forward p.1 = ∅) →
    (l.map Prod.fst).Nodup → Bidirectional (l.foldl buildStep st) := by
  induction l with
  | nil => intro st h _ _; exact h
  | cons p rest ih =>
    intro st hb hfresh hnd
    simp only [List.map_cons, List.nodup_cons] at hnd
    simp only [List.foldl_cons]
    apply ih
    · -- `buildStep` preserves the invariant when the new key is fresh
      intro c r
      simp only [buildStep]
      by_cases hc : c = p.1
      · by_cases hr : r ∈ p.2 <;> simp only [hr, if_true, if_false, hc, if_pos]
        · simp
        · simp only [iff_false]
          intro hmem
          have hfc := (hb p.1 r).mp hmem
          rw [hfresh p (List.mem_cons_self p rest)] at hfc
          exact absurd hfc (Finset.not_mem_empty r)
      · by_cases hr : r ∈ p.2 <;>
          simp only [hr, if_true, if_false, if_neg hc, Finset.mem_insert, hc,
            false_or] <;> exact hb c r
    · intro q hq
      simp only [buildStep]
      have hne : q.1 ≠ p.1 := by
        intro he
        exact hnd.1 (he ▸ List.mem_map_of_mem Prod.fst hq)
      rw [if_neg hne]
      exact hfresh q (List.mem_cons_of_mem p hq)
    · exact hnd.2

theorem filterMap_keys_sublist (files : List (String × Option (Finset String))) :
    ((files.filterMap fun p => p.2.map (p.1, ·)).map Prod.fst).Sublist
      (files.map Prod.fst) := by
  induction files with
  | nil => simp
  | cons p rest ih =>
    cases h : p.2 with
    | none => simp only [List.filterMap_cons, h, Option.map_none', List.map_cons]
              exact ih.cons p.1
    | some refs => simp only [List.filterMap_cons, h, Option.map_some', List.map_cons]
                   exact ih.cons₂ p.1

theorem bidir_buildIndex (files : List (String × Option (Finset String)))
    (hnd : (files.map Prod.fst).Nodup) (st : RefIndex) (hst : Bidirectional st) :
    Bidirectional (buildIndex files st) := by
  unfold buildIndex
  split
  · exact hst
  · exact bidir_buildFold _ emptyIndex bidir_empty (fun _ _ => rfl)
      (hnd.sublist (filterMap_keys_sublist files))

theorem bidir_upsertContainer (c : String) (refs : Finset String) (st : RefIndex)
    (hst : Bidirectional st) : Bidirectional (upsertContainer c refs st) := by
  intro c' r
  simp only [upsertContainer, Finset.mem_union]
  by_cases hc : c' = c
  · subst hc
    by_cases hr : r ∈ refs <;> by_cases hf : r ∈ st.forward c' <;>
      simp_all [Finset.mem_erase, hst c' r]
  · by_cases hr : r ∈ refs <;> by_cases hf : r ∈ st.forward c <;>
      simp_all [Finset.mem_erase, hst c' r]

theorem bidir_processContainerFile (cd : Bool) (res : Option (Finset String))
    (c : String) (st : RefIndex) (hst : Bidirectional st) :
    Bidirectional (processContainerFile cd res c st) := by
  unfold processContainerFile
  split
  · exact hst
  · cases res with
    | none => exact hst
    | some refs => exact bidir_upsertContainer c refs st hst

theorem bidir_dropContainer (c : String) (st : RefIndex) (hst : Bidirectional st) :
    Bidirectional (dropContainer c st) := by
  intro c' r
  simp only [dropContainer]
  by_cases hc : c' = c
  · subst hc
    by_cases hf : r ∈ st.forward c' <;> simp_all [Finset.mem_erase, hst c' r]
  · by_cases hf : r ∈ st.forward c <;> simp_all [Finset.mem_erase, hst c' r]

theorem mem_affectedOf (olds : List String) (st : RefIndex) (c : String) :
    c ∈ affectedOf olds st ↔ ∃ v ∈ olds, c ∈ st.reverse v := by
  induction olds with
  | nil => simp [affectedOf]
  | cons v rest ih =>
    simp only [affectedOf, List.foldr_cons, Finset.mem_union, List.mem_cons]
    rw [show rest.foldr (fun v acc => st.reverse v ∪ acc) ∅ = affectedOf rest st from rfl,
      ih]
    constructor
    · rintro (h | ⟨u, hu, hx⟩)
      · exact ⟨v, Or.inl rfl, h⟩
      · exact ⟨u, Or.inr hu, hx⟩
    · rintro ⟨u, (rfl | hu), hx⟩
      · exact Or.inl hx
      · exact Or.inr ⟨u, hu, hx⟩

theorem mem_popMove (news : List String) (R : String → Finset String)
    (v w x : String) :
    x ∈ popMove news R v w ↔
      (w ∈ news ∧ (x ∈ R v ∨ (w ≠ v ∧ x ∈ R w))) ∨
        (w ∉ news ∧ w ≠ v ∧ x ∈ R w) := by
  simp only [popMove]
  by_cases hn : w ∈ news <;> by_cases hv : w = v <;>
    simp_all [Finset.mem_union]
  tauto

/-- Net effect of the reverse-map move loop, for any processing order:
new variants accumulate every moved set, old-only variants are emptied,
everything else is untouched. -/
theorem mem_foldl_popMove (news : List String) :
    ∀ (olds : List String) (R : String → Finset String) (w x : String),
    x ∈ olds.foldl (popMove news) R w ↔
      (if w ∈ news then x ∈ R w ∨ ∃ v ∈ olds, x ∈ R v
       else if w ∈ olds then False else x ∈ R w) := by
  intro olds
  induction olds with
  | nil => intro R w x; split <;> simp
  | cons v rest ih =>
    intro R w x
    simp only [List.foldl_cons]
    rw [ih]
    by_cases hn : w ∈ news
    · simp only [hn, if_true, List.mem_cons]
      constructor
      · rintro (h | ⟨u, hu, hx⟩)
        · rw [mem_popMove] at h
          rcases h with ⟨_, (h | ⟨_, h⟩)⟩ | ⟨hw, _, h⟩
          · exact Or.inr ⟨v, Or.inl rfl, h⟩
          · exact Or.inl h
          · exact absurd hn hw
        · rw [mem_popMove] at hx
          rcases hx with ⟨_, (h | ⟨_, h⟩)⟩ | ⟨_, _, h⟩
          · exact Or.inr ⟨v, Or.inl rfl, h⟩
          · exact Or.inr ⟨u, Or.inr hu, h⟩
          · exact Or.inr ⟨u, Or.inr hu, h⟩
      · rintro (h | ⟨u, (rfl | hu), h⟩)
        · by_cases hv : w = v
          · subst hv
            exact Or.inl ((mem_popMove news R w w x).mpr (Or.inl ⟨hn, Or.inl h⟩))
          · exact Or.inl ((mem_popMove news R v w x).mpr (Or.inl ⟨hn, Or.inr ⟨hv, h⟩⟩))
        · exact Or.inl ((mem_popMove news R u w x).mpr (Or.inl ⟨hn, Or.inl h⟩))
        · by_cases huv : u = v
          · -- the moved set `R v` is re-added under every new variant, so
            -- membership survives via `w` itself
            subst huv
            exact Or.inl ((mem_popMove news R u w x).mpr (Or.inl ⟨hn, Or.inl h⟩))
          · exact Or.inr ⟨u, hu, (mem_popMove news R v u x).mpr
              (by by_cases hun : u ∈ news
                  · exact Or.inl ⟨hun, Or.inr ⟨huv, h⟩⟩
                  · exact Or.inr ⟨hun, huv, h⟩)⟩
    · simp only [hn, if_false, List.mem_cons]
      by_cases hr : w ∈ rest
      · simp [hr]
      · by_cases hv : w = v
        · subst hv
          simp only [hr, if_false, true_or, if_true, iff_false]
          rw [mem_popMove]
          rintro (⟨h, _⟩ | ⟨_, h, _⟩) <;> simp_all
        · simp only [hr, hv, false_or, if_false]
          rw [mem_popMove]
          constructor
          · rintro (⟨h, _⟩ | ⟨_, _, h⟩)
            · exact absurd h hn
            · exact h
          · intro h; exact Or.inr ⟨hn, hv, h⟩

theorem bidir_updateAssetIndex (opts : IndexOpts) (o n : String) (st : RefIndex)
    (hst : Bidirectional st) : Bidirectional (updateAssetIndex opts o n st) := by
  by_cases hA0 : affectedOf (oldVariantsOf opts o n) st = ∅
  · simpa only [updateAssetIndex, hA0, if_true] using hst
  · simp only [updateAssetIndex, hA0, if_false]
    intro c r
    simp only [mem_foldl_popMove]
    by_cases hA : c ∈ affectedOf (oldVariantsOf opts o n) st
    · simp only [hA, if_true, Finset.mem_union, Finset.mem_sdiff, List.mem_toFinset]
      by_cases hrn : r ∈ newVariantsOf opts o n
      · simp only [hrn, if_true, or_true, iff_true]
        exact Or.inr ((mem_affectedOf _ st c).mp hA)
      · by_cases hro : r ∈ oldVariantsOf opts o n
        · simp [hrn, hro]
        · simp only [hrn, hro, if_false, iff_false, not_false_eq_true, and_true,
            or_false]
          exact hst c r
    · simp only [hA, if_false]
      by_cases hrn : r ∈ newVariantsOf opts o n
      · simp only [hrn, if_true]
        rw [mem_affectedOf] at hA
        push_neg at hA
        constructor
        · rintro (h | ⟨v, hv, hx⟩)
          · exact (hst c r).mp h
          · exact absurd hx (hA v hv)
        · intro h; exact Or.inl ((hst c r).mpr h)
      · by_cases hro : r ∈ oldVariantsOf opts o n
        · simp only [hrn, hro, if_true, if_false, false_iff]
          intro hf
          rw [mem_affectedOf] at hA
          exact hA ⟨r, hro, (hst c r).mpr hf⟩
        · simp only [hrn, hro, if_false]
          exact hst c r

theorem bidir_dirMoveIndex (allowDir anyAffected : Bool)
    (files : List (String × Option (Finset String)))
    (hnd : (files.map Prod.fst).Nodup) (st : RefIndex) (hst : Bidirectional st) :
    Bidirectional (dirMoveIndex allowDir anyAffected files st) := by
  unfold dirMoveIndex
  split
  · exact bidir_buildIndex files hnd st hst
  · exact hst

/-! ### The rewrite is a per-match substitution that frames everything else -/

theorem matchAfterKey_eq {cs mid : List Char} {q : Char} {v rest : List Char}
    (h : matchAfterKey cs = some (mid, q, v, rest)) :
    cs = mid ++ q :: (v ++ q :: rest) := by
  simp only [matchAfterKey] at h
  split at h
  · exact absurd h (by simp)
  · rename_i c r2 heq1
    split at h
    · rename_i hc
      split at h
      · exact absurd h (by simp)
      · rename_i q0 r4 heq2
        split at h
        · rename_i hq0
          split at h
          · exact absurd h (by simp)
          · rename_i q2 rest0 heq3
            split at h
            · rename_i hq2
              injection h with h
              simp only [Prod.mk.injEq] at h
              obtain ⟨h1, h2, h3, h4⟩ := h
              subst h1; subst h2; subst h3; subst h4
              conv_lhs => rw [← List.takeWhile_append_dropWhile isPySpace cs,
                heq1, hc]
              conv_lhs => rw [← List.takeWhile_append_dropWhile isPySpace r2,
                heq2]
              conv_lhs =>
                rw [← List.takeWhile_append_dropWhile
                  (fun c => decide ¬ isQuoteCh c) r4, heq3]
              rw [hq2.1]
              simp [List.append_assoc]
            · exact absurd h (by simp)
        · exact absurd h (by simp)
    · exact absurd h (by simp)

theorem matchKeyAt_eq {key cs pre r : List Char}
    (h : matchKeyAt key cs = some (pre, r)) : cs = pre ++ r := by
  simp only [matchKeyAt] at h
  split at h
  · rename_i hcond
    injection h with h
    have h1 : cs.take key.length = pre := congrArg (·.1) h
    have h2 : cs.drop key.length = r := congrArg (·.2) h
    rw [← h1, ← h2, List.take_append_drop]
  · exact absurd h (by simp)

/-- A successful attempt decomposes the input as the match's span followed
by the remainder. -/
theorem xmlTryMatch_eq {cs : List Char} {m : XmlMatch} {rest : List Char}
    (h : xmlTryMatch cs = some (m, rest)) : cs = m.render ++ rest := by
  obtain ⟨key, hkey, hf⟩ := List.exists_of_findSome?_eq_some h
  revert hf
  cases hk : matchKeyAt key cs with
  | none => intro hf; exact absurd hf (by simp)
  | some pr =>
    obtain ⟨pre0, r0⟩ := pr
    intro hf
    simp only [Option.map_eq_some'] at hf
    obtain ⟨⟨mid, q, v, rest'⟩, hak, hmk⟩ := hf
    simp only [Prod.mk.injEq] at hmk
    obtain ⟨hm, hrest⟩ := hmk
    have hcs := matchKeyAt_eq hk
    have hr := matchAfterKey_eq hak
    subst hm
    subst hrest
    simp only [XmlMatch.render]
    rw [hcs, hr]
    simp [List.append_assoc]

theorem renderSegs_scanGo (fuel : Nat) :
    ∀ cs, renderSegs (xmlScanGo fuel cs) = cs := by
  induction fuel with
  | zero =>
    intro cs
    simp only [xmlScanGo, renderSegs]
    induction cs with
    | nil => rfl
    | cons c cs ih => simpa [Seg.render] using ih
  | succ fuel ih =>
    intro cs
    cases cs with
    | nil => rfl
    | cons c cs =>
      simp only [xmlScanGo]
      cases h : xmlTryMatch (c :: cs) with
      | none => simpa [renderSegs, Seg.render] using ih cs
      | some pr =>
        obtain ⟨m, rest⟩ := pr
        have hdec := xmlTryMatch_eq h
        simp only [renderSegs, List.flatMap_cons, Seg.render]
        rw [show (xmlScanGo fuel rest).flatMap Seg.render = renderSegs (xmlScanGo fuel rest) from rfl,
          ih rest, ← hdec]

/-- `render` after `scan` reproduces the content byte for byte. -/
theorem renderSegs_xmlScan (cs : List Char) : renderSegs (xmlScan cs) = cs :=
  renderSegs_scanGo cs.length cs

theorem subGo_eq_render_map (repl : List (String × String)) (dm : Bool)
    (fuel : Nat) :
    ∀ cs, xmlSubGo repl dm fuel cs =
      renderSegs ((xmlScanGo fuel cs).map (xmlApplySeg repl dm)) := by
  induction fuel with
  | zero =>
    intro cs
    simp only [xmlSubGo, xmlScanGo, renderSegs]
    induction cs with
    | nil => rfl
    | cons c cs ih => simpa [Seg.render, xmlApplySeg] using ih
  | succ fuel ih =>
    intro cs
    cases cs with
    | nil => rfl
    | cons c cs =>
      simp only [xmlSubGo, xmlScanGo]
      cases h : xmlTryMatch (c :: cs) with
      | none => simpa [renderSegs, Seg.render, xmlApplySeg] using ih cs
      | some pr =>
        obtain ⟨m, rest⟩ := pr
        simp only [renderSegs, List.map_cons, List.flatMap_cons, xmlApplySeg,
          Seg.render]
        rw [show ((xmlScanGo fuel rest).map (xmlApplySeg repl dm)).flatMap Seg.render
            = renderSegs ((xmlScanGo fuel rest).map (xmlApplySeg repl dm)) from rfl,
          ← ih rest]

/-- The rewrite output is exactly the rendered scan with each match passed
through the callback. -/
theorem xmlRewriteContent_eq (repl : List (String × String)) (dm : Bool)
    (cs : List Char) :
    xmlRewriteContent repl dm cs =
      renderSegs ((xmlScan cs).map (xmlApplySeg repl dm)) :=
  subGo_eq_render_map repl dm cs.length cs

theorem xmlApplyMatch_pre_quote (repl : List (String × String)) (dm : Bool)
    (m : XmlMatch) :
    (xmlApplyMatch repl dm m).pre = m.pre ∧
      (xmlApplyMatch repl dm m).quote = m.quote := by
  simp only [xmlApplyMatch]
  split <;> first
    | exact ⟨rfl, rfl⟩
    | (split <;> exact ⟨rfl, rfl⟩)

/-- The callback substitutes the value exactly when its normalised lowered
form is a key of the (lowered) replacements map with a nonempty image. -/
theorem xmlApplyMatch_value_of_lookup (repl : List (String × String))
    (m : XmlMatch) (w : List Char)
    (h : (repl.map fun p => (lowerL p.1.data, p.2.data)).lookup
        (lowerL (normSlash (stripL m.value))) = some w)
    (hw : w ≠ []) : (xmlApplyMatch repl false m).value = w := by
  simp [xmlApplyMatch, h, hw]

/-- A value whose normalised lowered form is not a key of the map is left
untouched, as is the whole match. -/
theorem xmlApplyMatch_of_lookup_none (repl : List (String × String))
    (m : XmlMatch)
    (h : (repl.map fun p => (lowerL p.1.data, p.2.data)).lookup
        (lowerL (normSlash (stripL m.value))) = none) :
    xmlApplyMatch repl false m = m := by
  simp [xmlApplyMatch, h]

/-- C2.  Frame property of container rewriting: the handler's rewrite is the
render of the regex scan of the file with each match passed through the
replacement callback — so each matched value is substituted exactly when it
equals (case-insensitively, after strip and slash normalisation) a key of
the replacements map, the match's prefix and quote are re-emitted
verbatim, and every byte outside the match spans is reproduced byte for
byte (`renderSegs (xmlScan cs) = cs`).  In particular, renaming
`textures/wall.dds` to `textures/stone.dds` turns
`Texture="textures/wall.dds"` in `mat.mtl` into
`Texture="textures/stone.dds"` with every other byte unchanged. -/
theorem c2_rewrite_frame_property :
    (∀ cs : List Char, renderSegs (xmlScan cs) = cs) ∧
    (∀ (repl : List (String × String)) (cs : List Char),
      xmlRewriteContent repl false cs =
        renderSegs ((xmlScan cs).map (xmlApplySeg repl false))) ∧
    (∀ (repl : List (String × String)) (m : XmlMatch),
      (xmlApplyMatch repl false m).pre = m.pre ∧
        (xmlApplyMatch repl false m).quote = m.quote) ∧
    (∀ (repl : List (String × String)) (m : XmlMatch),
      (repl.map fun p => (lowerL p.1.data, p.2.data)).lookup
          (lowerL (normSlash (stripL m.value))) = none →
        xmlApplyMatch repl false m = m) ∧
    xmlRewriteContent (renamePairs {} "textures/wall.dds" "textures/stone.dds")
        false
        "<Material MtlFlags=\"524544\">\n  Texture=\"textures/wall.dds\"\n</Material>\n".data =
      "<Material MtlFlags=\"524544\">\n  Texture=\"textures/stone.dds\"\n</Material>\n".data :=
  ⟨renderSegs_xmlScan,
   fun repl cs => xmlRewriteContent_eq repl false cs,
   fun repl m => xmlApplyMatch_pre_quote repl false m,
   fun repl m h => xmlApplyMatch_of_lookup_none repl m h,
   by decide⟩

/-- Witness for C2's conditional conjunct: a match whose value is not a key
of the replacements map is reproduced verbatim. -/
theorem c2_rewrite_frame_property_witness :
    xmlApplyMatch [("textures/wall.dds", "textures/stone.dds")] false
        ⟨"Texture=".data, dquote, "textures/other.dds".data⟩ =
      ⟨"Texture=".data, dquote, "textures/other.dds".data⟩ :=
  c2_rewrite_frame_property.2.2.2.1
    [("textures/wall.dds", "textures/stone.dds")]
    ⟨"Texture=".data, dquote, "textures/other.dds".data⟩ (by decide)

/-- C1.  Bidirectional consistency: for every index state reachable from the
empty index by any sequence of `build_index`, `process_container_file`,
`remove_container_from_index`, `update_asset_path` and
`handle_directory_move`, and for every container path `c` and reference key
`r`, `c ∈ reference_to_containers[r]` iff `r ∈ container_to_references[c]`. -/
theorem c1_bidirectional_consistency (st : RefIndex) (h : ReachableIndex st) :
    ∀ c r, c ∈ st.reverse r ↔ r ∈ st.forward c := by
  have key : Bidirectional st := by
    induction h with
    | empty => exact bidir_empty
    | step _ s ih =>
      cases s with
      | build files hnd => exact bidir_buildIndex files hnd _ ih
      | upsert cd res c => exact bidir_processContainerFile cd res c _ ih
      | drop c => exact bidir_dropContainer c _ ih
      | rename opts o n => exact bidir_updateAssetIndex opts o n _ ih
      | dirmove allowDir anyAffected files hnd =>
        exact bidir_dirMoveIndex allowDir anyAffected files hnd _ ih
  exact key

/-- Witness for C1 at a concrete reachable state: the index obtained by
upserting `mat.mtl → {textures/wall.dds}` into the empty index. -/
theorem c1_bidirectional_consistency_witness :
    "mat.mtl" ∈
        (processContainerFile false (some {"textures/wall.dds"}) "mat.mtl"
          emptyIndex).reverse "textures/wall.dds" ↔
      "textures/wall.dds" ∈
        (processContainerFile false (some {"textures/wall.dds"}) "mat.mtl"
          emptyIndex).forward "mat.mtl" :=
  c1_bidirectional_consistency _
    (ReachableIndex.step ReachableIndex.empty
      (IndexStep.upsert false (some {"textures/wall.dds"}) "mat.mtl" emptyIndex))
    "mat.mtl" "textures/wall.dds"

/-- C10.  An existing container file of size 0 fails the parse worker's
`st_size > 0` requirement, so `process_container_file` keeps the old data:
both index maps are left completely unchanged (previously indexed
references for that container are retained, not cleared) — even though
`XmlAssetHandler.parse` itself maps an empty file to the empty set. -/
theorem c10_empty_file_keeps_old_data :
    (∀ (st : RefIndex) (c : String) (parseResult : Finset String),
      processContainerFile false (indexParseWorker true 0 parseResult) c st = st) ∧
    indexParseWorker true 0 ∅ = none ∧
    xmlParse [] = ∅ := by
  refine ⟨fun st c parseResult => ?_, by decide, by decide⟩
  simp [processContainerFile, indexParseWorker]

/-! ## C9 — temp-file naming of the atomic writer -/

/-- String append is concatenation of the underlying character lists. -/
theorem strData_append (a b : String) : (a ++ b).data = a.data ++ b.data := rfl

theorem strAppend_assoc (a b c : String) : a ++ b ++ c = a ++ (b ++ c) := by
  apply String.ext
  show (a.data ++ b.data) ++ c.data = a.data ++ (b.data ++ c.data)
  exact List.append_assoc a.data b.data c.data

/-- A pathlib suffix is either empty or a `drop` of the name. -/
theorem suffixOfName_cases (name : List Char) :
    suffixOfName name = [] ∨
      ∃ i, i ≤ name.length ∧ suffixOfName name = name.drop i := by
  simp only [suffixOfName]
  split
  · exact Or.inl rfl
  · split
    · rename_i h
      exact Or.inr ⟨_, by omega, rfl⟩
    · exact Or.inl rfl

/-- Removing a name's pathlib suffix and re-appending it restores the name. -/
theorem take_append_suffixOfName (name : List Char) :
    name.take (name.length - (suffixOfName name).length) ++ suffixOfName name
      = name := by
  rcases suffixOfName_cases name with h | ⟨i, hi, h⟩ <;> rw [h]
  · simp
  · rw [List.length_drop, Nat.sub_sub_self hi]
    exact List.take_append_drop i name

/-- The directory and name parts reassemble into the path. -/
theorem dirOf_append_nameOf (l : List Char) : dirOf l ++ nameOf l = l := by
  simp only [dirOf, nameOf]
  rw [← List.reverse_append, List.takeWhile_append_dropWhile, List.reverse_reverse]

/-- `with_suffix(suffix + x)` always appends `x` to the whole path: the old
suffix is removed from the name and immediately re-appended. -/
theorem pyWithSuffix_append (p x : String) :
    pyWithSuffix p (pySuffix p ++ x) = p ++ x := by
  apply String.ext
  show dirOf p.data ++
      (nameOf p.data).take ((nameOf p.data).length -
        (suffixOfName (nameOf p.data)).length) ++
      (suffixOfName (nameOf p.data) ++ x.data) = p.data ++ x.data
  rw [List.append_assoc, ← List.append_assoc ((nameOf p.data).take _),
    take_append_suffixOfName, ← List.append_assoc, dirOf_append_nameOf]

/-- C9 counterexample: the atomic writer actually used by the core's
rewriter (`app/utils.atomic_write`, imported by `app/asset_handlers.py`)
names its temp file `mat.mtl.tmp`, which is not of the form
`mat.mtl.<pid>.tmp` for any process-id string (even the empty one). -/
theorem c9_temp_name_counterexample :
    utilsTempName "mat.mtl" = "mat.mtl.tmp" ∧
      ∀ s : String, "mat.mtl.tmp" ≠ "mat.mtl." ++ s ++ ".tmp" := by
  refine ⟨by decide, fun s h => ?_⟩
  have hlen := congrArg String.length h
  have e1 : ("mat.mtl.tmp" : String).length = 11 := by decide
  have e2 : ("mat.mtl." : String).length = 8 := by decide
  have e3 : (".tmp" : String).length = 4 := by decide
  simp only [String.length_append, e1, e2, e3] at hlen
  omega

/-- C9 amended: the core's rewriter writes through `app/utils.atomic_write`,
whose temp file is always `path + ".tmp"` with no pid component; the
pid-suffixed scheme `path + "." + pid + ".tmp"` exists only in
`app/core/utils.atomic_write`, which the watcher's handlers do not import. -/
theorem c9_temp_name_amended :
    (∀ p : String, utilsTempName p = p ++ ".tmp") ∧
    (∀ (p : String) (pid : Nat),
      coreUtilsTempName p pid = p ++ "." ++ toString pid ++ ".tmp") := by
  constructor
  · intro p
    exact pyWithSuffix_append p ".tmp"
  · intro p pid
    have h := pyWithSuffix_append p ("." ++ toString pid ++ ".tmp")
    simp only [coreUtilsTempName]
    rw [show pySuffix p ++ "." ++ toString pid ++ ".tmp"
        = pySuffix p ++ ("." ++ toString pid ++ ".tmp") by
      rw [strAppend_assoc, strAppend_assoc, strAppend_assoc], h,
      ← strAppend_assoc, ← strAppend_assoc]

/-! ## Combined watcher state: index, disk, cooldowns, move-detection cache

`disk` is the content of each project-relative file, `fileExists` its
presence (both mutated externally by the editor, and by the tool's own
rewrites); `cooldowns` is `AssetReferenceIndex._write_cooldowns`
(`is_on_cooldown`: `time.time() < self._write_cooldowns.get(path, 0)`,
missing key = 0); `lastDeleted` is `ChangeHandler._last_deleted`
(basename ↦ (path, deletion time)). -/
structure WatchState where
  index : RefIndex
  disk : String → List Char
  fileExists : String → Bool
  cooldowns : String → ℤ
  lastDeleted : String → Option (String × ℤ)

/-- `is_on_cooldown` (lines 73–75). -/
def onCooldown (t : ℤ) (s : WatchState) (p : String) : Prop :=
  t < s.cooldowns p

instance (t : ℤ) (s : WatchState) (p : String) : Decidable (onCooldown t s p) :=
  inferInstanceAs (Decidable (_ < _))

/-- The worker result `_index_parse_worker` would produce for container `p`
in state `s` (`Handler.parse` dispatched on the suffix, `st_size` is the
content length). -/
def workerResult (s : WatchState) (p : String) : Option (Finset String) :=
  indexParseWorker (s.fileExists p) (s.disk p).length (handlerParse p (s.disk p))

/-- `update_asset_path` (lines 149–214) on the combined state: compute the
variants, find the affected containers, rewrite each affected container
that has a handler (setting a 2-second cooldown on it), then update the
in-memory maps.  `rewriteOk c = false` models an exception inside
`Handler.rewrite` for container `c`: the handler catches and logs it, the
atomic writer leaves the file intact, and — per lines 204–214 — the index
update happens regardless.  For a suffix without a handler
`handlerRewrite` is the identity, mirroring the `if Handler:` guard. -/
def renameAssetOp (opts : IndexOpts) (rewriteOk : String → Bool) (t : ℤ)
    (oldRel newRel : String) (s : WatchState) : WatchState :=
  let pairs := renamePairs opts oldRel newRel
  let olds := oldVariantsOf opts oldRel newRel
  let A := affectedOf olds s.index
  if A = ∅ then s
  else
    { s with
      index := updateAssetIndex opts oldRel newRel s.index
      disk := fun c =>
        if c ∈ A ∧ strLower (pySuffix c) ∈ containerExts ∧ rewriteOk c then
          handlerRewrite c pairs false (s.disk c)
        else s.disk c
      cooldowns := fun c =>
        if c ∈ A ∧ strLower (pySuffix c) ∈ containerExts then t + 2
        else s.cooldowns c }

/-- `ChangeHandler.on_deleted` (lines 339–349): cache the deletion for move
detection when the suffix is tracked or a container extension, then — for
a container not on cooldown — drop it from the index immediately
(`remove_container_from_index` re-checks the cooldown with the same
outcome at a single instant). -/
def onDeleted (t : ℤ) (p : String) (s : WatchState) : WatchState :=
  let sfx := strLower (pySuffix p)
  let s1 :=
    if sfx ∈ TRACKED_ASSET_EXTENSIONS ∨ sfx ∈ containerExts then
      { s with lastDeleted := fun nm =>
          if nm = String.mk (nameOf p.data) then some (p, t) else s.lastDeleted nm }
    else s
  if sfx ∈ containerExts ∧ ¬ onCooldown t s1 p then
    { s1 with index := dropContainer p s1.index }
  else s1

/-- `ChangeHandler.on_created` (lines 314–330): if the basename matches a
deletion younger than one second, treat it as a move (running
`update_asset_path` when the suffix is tracked) and forget the cache
entry; then, for a container not on cooldown, upsert it from disk. -/
def onCreated (opts : IndexOpts) (rewriteOk : String → Bool) (t : ℤ)
    (p : String) (s : WatchState) : WatchState :=
  let nm := String.mk (nameOf p.data)
  let sfx := strLower (pySuffix p)
  let s1 :=
    match s.lastDeleted nm with
    | some entry =>
      if t - entry.2 < 1 then
        let s2 :=
          if sfx ∈ TRACKED_ASSET_EXTENSIONS then
            renameAssetOp opts rewriteOk t entry.1 p s
          else s
        { s2 with lastDeleted := fun x => if x = nm then none else s2.lastDeleted x }
      else s
    | none => s
  if sfx ∈ containerExts ∧ ¬ onCooldown t s1 p then
    { s1 with index := processContainerFile false (workerResult s1 p) p s1.index }
  else s1

/-! ## Concrete scenario states -/

/-- A project with a single container `mat.mtl` whose only reference is
`textures/wall.dds`; the index agrees with disk; no cooldowns, no pending
deletions. -/
def wallState : WatchState :=
  { index :=
      { forward := fun c => if c = "mat.mtl" then {"textures/wall.dds"} else ∅
        reverse := fun r => if r = "textures/wall.dds" then {"mat.mtl"} else ∅ }
    disk := fun c =>
      if c = "mat.mtl" then "Texture=\"textures/wall.dds\"\n".data else []
    fileExists := fun _ => true
    cooldowns := fun _ => 0
    lastDeleted := fun _ => none }

/-- A project with a single container `level.lyr` whose only reference is
`mats/door.mtl`; the index agrees with disk. -/
def doorState : WatchState :=
  { index :=
      { forward := fun c => if c = "level.lyr" then {"mats/door.mtl"} else ∅
        reverse := fun r => if r = "mats/door.mtl" then {"level.lyr"} else ∅ }
    disk := fun c =>
      if c = "level.lyr" then "<Obj Material=\"mats/door.mtl\"/>".data else []
    fileExists := fun _ => true
    cooldowns := fun _ => 0
    lastDeleted := fun _ => none }

/-! ## C3 — index/disk agreement after a rename -/

/-- C3 counterexample: starting from an index that agrees with disk
(`level.lyr ↦ {mats/door.mtl}`), renaming `mats/door.mtl` to
`mats/gate.mtl` rewrites the file to reference `mats/gate.mtl`, but the
in-memory update also inserts the extensionless variant `mats/gate` into
the forward entry — a key the rewritten file does not contain — so
re-parsing disk does **not** reproduce the in-memory maps (here the
re-parse is a proper subset of the in-memory forward entry). -/
theorem c3_index_disk_agreement_counterexample :
    handlerParse "level.lyr" (doorState.disk "level.lyr")
        = doorState.index.forward "level.lyr" ∧
    "mats/gate" ∈ (renameAssetOp {} (fun _ => true) 0 "mats/door.mtl"
        "mats/gate.mtl" doorState).index.forward "level.lyr" ∧
    "mats/gate" ∉ handlerParse "level.lyr" ((renameAssetOp {} (fun _ => true) 0
        "mats/door.mtl" "mats/gate.mtl" doorState).disk "level.lyr") ∧
    handlerParse "level.lyr" ((renameAssetOp {} (fun _ => true) 0
        "mats/door.mtl" "mats/gate.mtl" doorState).disk "level.lyr") ⊆
      (renameAssetOp {} (fun _ => true) 0 "mats/door.mtl" "mats/gate.mtl"
        doorState).index.forward "level.lyr" ∧
    handlerParse "level.lyr" ((renameAssetOp {} (fun _ => true) 0
        "mats/door.mtl" "mats/gate.mtl" doorState).disk "level.lyr") ≠
      (renameAssetOp {} (fun _ => true) 0 "mats/door.mtl" "mats/gate.mtl"
        doorState).index.forward "level.lyr" := by
  refine ⟨rfl, by decide, by decide, by decide, fun h => ?_⟩
  have hmem : "mats/gate" ∈ (renameAssetOp {} (fun _ => true) 0 "mats/door.mtl"
      "mats/gate.mtl" doorState).index.forward "level.lyr" := by decide
  have hnot : "mats/gate" ∉ handlerParse "level.lyr"
      ((renameAssetOp {} (fun _ => true) 0 "mats/door.mtl" "mats/gate.mtl"
        doorState).disk "level.lyr") := by decide
  exact hnot (h ▸ hmem)

/-- C3 amended: after `update_asset_path`, the in-memory maps are not the
disk re-parse in general; they are the following over-approximation: each
affected container's forward entry becomes
`(previous \ old_variants) ∪ new_variants` — inserting every new variant
whether or not the rewritten file contains it — unaffected containers keep
their entries, and the reverse map carries every affected container under
every new variant. -/
theorem c3_index_disk_agreement_amended (opts : IndexOpts) (o n : String)
    (st : RefIndex) (c : String)
    (hA : affectedOf (oldVariantsOf opts o n) st ≠ ∅) :
    (c ∈ affectedOf (oldVariantsOf opts o n) st →
      (updateAssetIndex opts o n st).forward c =
        (st.forward c \ (oldVariantsOf opts o n).toFinset) ∪
          (newVariantsOf opts o n).toFinset) ∧
    (c ∉ affectedOf (oldVariantsOf opts o n) st →
      (updateAssetIndex opts o n st).forward c = st.forward c) ∧
    (∀ r, c ∈ (updateAssetIndex opts o n st).reverse r ↔
      (if r ∈ newVariantsOf opts o n then
        c ∈ st.reverse r ∨ c ∈ affectedOf (oldVariantsOf opts o n) st
       else if r ∈ oldVariantsOf opts o n then False
       else c ∈ st.reverse r)) := by
  refine ⟨fun hc => ?_, fun hc => ?_, fun r => ?_⟩
  · simp only [updateAssetIndex, hA, if_false, hc, if_true]
  · simp only [updateAssetIndex, hA, if_false, hc, if_false]
  · simp only [updateAssetIndex, hA, if_false, mem_foldl_popMove,
      mem_affectedOf]

/-- Witness for C3's amended statement at the door/gate scenario. -/
theorem c3_index_disk_agreement_amended_witness :
    ("level.lyr" ∈ affectedOf (oldVariantsOf {} "mats/door.mtl" "mats/gate.mtl")
        doorState.index →
      (updateAssetIndex {} "mats/door.mtl" "mats/gate.mtl"
          doorState.index).forward "level.lyr" =
        (doorState.index.forward "level.lyr" \
          (oldVariantsOf {} "mats/door.mtl" "mats/gate.mtl").toFinset) ∪
          (newVariantsOf {} "mats/door.mtl" "mats/gate.mtl").toFinset) ∧
    ("level.lyr" ∉ affectedOf (oldVariantsOf {} "mats/door.mtl" "mats/gate.mtl")
        doorState.index →
      (updateAssetIndex {} "mats/door.mtl" "mats/gate.mtl"
          doorState.index).forward "level.lyr" =
        doorState.index.forward "level.lyr") ∧
    (∀ r, "level.lyr" ∈ (updateAssetIndex {} "mats/door.mtl" "mats/gate.mtl"
        doorState.index).reverse r ↔
      (if r ∈ newVariantsOf {} "mats/door.mtl" "mats/gate.mtl" then
        "level.lyr" ∈ doorState.index.reverse r ∨
          "level.lyr" ∈ affectedOf (oldVariantsOf {} "mats/door.mtl"
            "mats/gate.mtl") doorState.index
       else if r ∈ oldVariantsOf {} "mats/door.mtl" "mats/gate.mtl" then False
       else "level.lyr" ∈ doorState.index.reverse r)) :=
  c3_index_disk_agreement_amended {} "mats/door.mtl" "mats/gate.mtl"
    doorState.index "level.lyr"
    (Finset.ne_empty_of_mem (show "level.lyr" ∈ _ by decide))

/-! ## C5 — `dry_run` never reaches the index -/

/-- C5.  `dry_run` is a code bug: `AssetReferenceIndex.__init__` reads only
`allow_ext_change`, `allow_dir_change` and `match_any_texture_extension`
from `watcher_options`, so processing a rename with `dry_run = true` is
*identical* to processing it with `dry_run = false` — the handler rewrites
the file on disk and both index maps are updated, contradicting the
claimed short-circuit (the only `dry_run` effect in the program is one
startup log line in `MainWindow._start_watching`). -/
theorem c5_dry_run_is_ignored :
    (∀ (ok : String → Bool) (t : ℤ) (o n : String) (s : WatchState),
      renameAssetOp (indexOptsOf ⟨true, true, true, true⟩) ok t o n s =
        renameAssetOp (indexOptsOf ⟨true, true, true, false⟩) ok t o n s) ∧
    ((renameAssetOp (indexOptsOf ⟨true, true, true, true⟩) (fun _ => true) 0
        "textures/wall.dds" "textures/stone.dds" wallState).disk "mat.mtl" ≠
      wallState.disk "mat.mtl") ∧
    "textures/stone.dds" ∈ (renameAssetOp (indexOptsOf ⟨true, true, true, true⟩)
        (fun _ => true) 0 "textures/wall.dds" "textures/stone.dds"
        wallState).index.forward "mat.mtl" ∧
    "textures/wall.dds" ∉ (renameAssetOp (indexOptsOf ⟨true, true, true, true⟩)
        (fun _ => true) 0 "textures/wall.dds" "textures/stone.dds"
        wallState).index.forward "mat.mtl" :=
  ⟨fun _ _ _ _ _ => rfl, by decide, by decide, by decide⟩

/-! ## C6 — extensionless material references are not actually patched -/

/-- C6 counterexample: for the rename `mats/door.mtl → mats/gate.mtl` the
candidate keys do include the extensionless `mats/door` (the first half of
the claim), but the handler's rewrite leaves `Material="mats/door"`
byte-for-byte unchanged — its regex only matches values ending in a
tracked extension — so the container does not end up with
`Material="mats/gate"`. -/
theorem c6_extensionless_counterexample :
    "mats/door" ∈ oldVariantsOf {} "mats/door.mtl" "mats/gate.mtl" ∧
    xmlRewriteContent (renamePairs {} "mats/door.mtl" "mats/gate.mtl") false
        "<Layer Material=\"mats/door\"/>".data =
      "<Layer Material=\"mats/door\"/>".data ∧
    "<Layer Material=\"mats/door\"/>".data ≠
      "<Layer Material=\"mats/gate\"/>".data :=
  ⟨by decide, by decide, by decide⟩

/-- C6 amended: on renaming `mats/door.mtl` to `mats/gate.mtl` the
extensionless pair `mats/door → mats/gate` is included among the candidate
reference keys and replacements, but both handler regexes require a
tracked extension on the value, so a container holding
`Material="mats/door"` is never parsed into the index (its parse is empty)
and its content is left unchanged by the rewrite. -/
theorem c6_extensionless_amended :
    ("mats/door", "mats/gate") ∈ renamePairs {} "mats/door.mtl" "mats/gate.mtl" ∧
    "mats/door" ∈ oldVariantsOf {} "mats/door.mtl" "mats/gate.mtl" ∧
    "mats/gate" ∈ newVariantsOf {} "mats/door.mtl" "mats/gate.mtl" ∧
    xmlParse "<Layer Material=\"mats/door\"/>".data = ∅ ∧
    xmlRewriteContent (renamePairs {} "mats/door.mtl" "mats/gate.mtl") false
        "<Layer Material=\"mats/door\"/>".data =
      "<Layer Material=\"mats/door\"/>".data :=
  ⟨by decide, by decide, by decide, rfl, by decide⟩

/-! ## C7 — `allow_ext_change` is stored but never consulted -/

/-- C7.  `allow_ext_change` is a code bug: `__init__` stores it as
`self.allow_extension_change` (line 57) but `update_asset_path` never
reads it, so with `allow_ext_change = false` the candidate expansion is
identical to `true` — for the rename `t/a.tif → t/b.tif` the searched keys
still include `t/a.dds`, whose extension differs from the original `.tif`,
contradicting the claimed restriction. -/
theorem c7_allow_ext_change_is_ignored :
    (∀ (b : Bool) (ok : String → Bool) (t : ℤ) (o n : String) (s : WatchState),
      renameAssetOp { allowExtensionChange := b } ok t o n s =
        renameAssetOp { allowExtensionChange := true } ok t o n s) ∧
    "t/a.dds" ∈ oldVariantsOf { allowExtensionChange := false } "t/a.tif" "t/b.tif" ∧
    "t/b.dds" ∈ newVariantsOf { allowExtensionChange := false } "t/a.tif" "t/b.tif" ∧
    pySuffix "t/a.dds" ≠ pySuffix "t/a.tif" :=
  ⟨fun _ _ _ _ _ _ => rfl, by decide, by decide, by decide⟩

/-! ## C8 — rewrite failure leaves disk intact but the index is updated -/

/-- C8 counterexample: when the rewrite of the affected container
`level.lyr` fails (exception caught inside `Handler.rewrite`), the on-disk
content is indeed intact, but the index entries for that file *are*
updated by the unconditional map update of lines 204–214 — refuting the
claim's "the index is not updated for that file". -/
theorem c8_rewrite_failure_counterexample :
    ((renameAssetOp {} (fun c => decide (c ≠ "level.lyr")) 0 "mats/door.mtl"
        "mats/gate.mtl" doorState).disk "level.lyr" =
      doorState.disk "level.lyr") ∧
    "mats/gate.mtl" ∈ (renameAssetOp {} (fun c => decide (c ≠ "level.lyr")) 0
        "mats/door.mtl" "mats/gate.mtl" doorState).index.forward "level.lyr" ∧
    "mats/door.mtl" ∉ (renameAssetOp {} (fun c => decide (c ≠ "level.lyr")) 0
        "mats/door.mtl" "mats/gate.mtl" doorState).index.forward "level.lyr" ∧
    (renameAssetOp {} (fun c => decide (c ≠ "level.lyr")) 0 "mats/door.mtl"
        "mats/gate.mtl" doorState).index.forward "level.lyr" ≠
      doorState.index.forward "level.lyr" := by
  refine ⟨by decide, by decide, by decide, fun h => ?_⟩
  have hmem : "mats/gate.mtl" ∈ (renameAssetOp {} (fun c => decide (c ≠ "level.lyr"))
      0 "mats/door.mtl" "mats/gate.mtl" doorState).index.forward "level.lyr" := by
    decide
  have hnot : "mats/gate.mtl" ∉ doorState.index.forward "level.lyr" := by decide
  exact hnot (h ▸ hmem)

/-- C8 amended: if the handler's rewrite of container `f` fails, the
on-disk content of `f` is left intact (the handler catches the exception
and the atomic writer never replaced the file), but the in-memory index
update of `update_asset_path` happens regardless of per-file rewrite
outcomes — the index is exactly `updateAssetIndex` of the old index. -/
theorem c8_rewrite_failure_amended (opts : IndexOpts) (ok : String → Bool)
    (t : ℤ) (o n : String) (s : WatchState) (f : String)
    (hf : ok f = false) :
    (renameAssetOp opts ok t o n s).disk f = s.disk f ∧
    (renameAssetOp opts ok t o n s).index = updateAssetIndex opts o n s.index := by
  by_cases hA : affectedOf (oldVariantsOf opts o n) s.index = ∅
  · constructor
    · simp [renameAssetOp, hA]
    · simp [renameAssetOp, updateAssetIndex, hA]
  · constructor
    · simp [renameAssetOp, hA, hf]
    · simp [renameAssetOp, updateAssetIndex, hA]

/-- Witness for C8's amended statement: the rewrite of `level.lyr` fails,
its disk content is untouched, and the index is still updated. -/
theorem c8_rewrite_failure_amended_witness :
    ((renameAssetOp {} (fun c => decide (c ≠ "level.lyr")) 0 "mats/door.mtl"
        "mats/gate.mtl" doorState).disk "level.lyr" =
      doorState.disk "level.lyr") ∧
    (renameAssetOp {} (fun c => decide (c ≠ "level.lyr")) 0 "mats/door.mtl"
        "mats/gate.mtl" doorState).index =
      updateAssetIndex {} "mats/door.mtl" "mats/gate.mtl" doorState.index :=
  c8_rewrite_failure_amended {} (fun c => decide (c ≠ "level.lyr")) 0
    "mats/door.mtl" "mats/gate.mtl" doorState "level.lyr" (by decide)

/-! ## C4 — editor atomic saves (delete + create on the same path) -/

/-- After dropping container `p`, no variant of `p`'s own path has any
remaining referrer, provided nothing but possibly `p` itself referenced
them before — so the move-detection rename `update_asset_path(p, p)`
finds no affected containers and returns early. -/
theorem affected_empty_after_drop (opts : IndexOpts) (p : String)
    (st : RefIndex) (hInv : Bidirectional st)
    (hself : ∀ v ∈ oldVariantsOf opts p p, st.reverse v ⊆ {p}) :
    affectedOf (oldVariantsOf opts p p) (dropContainer p st) = ∅ := by
  rw [Finset.eq_empty_iff_forall_not_mem]
  intro c hc
  rw [mem_affectedOf] at hc
  obtain ⟨v, hv, hcv⟩ := hc
  simp only [dropContainer] at hcv
  by_cases hf : v ∈ st.forward p
  · rw [if_pos hf] at hcv
    have := Finset.mem_of_mem_erase hcv
    have hcp := Finset.mem_singleton.mp (hself v hv this)
    exact (Finset.ne_of_mem_erase hcv) hcp
  · rw [if_neg hf] at hcv
    have hcp := Finset.mem_singleton.mp (hself v hv hcv)
    subst hcp
    exact hf ((hInv c v).mp hcv)

/-- Re-upserting a container with exactly its previous reference set, right
after dropping it, restores the index. -/
theorem upsert_after_drop (p : String) (st : RefIndex)
    (hInv : Bidirectional st) :
    upsertContainer p (st.forward p) (dropContainer p st) = st := by
  obtain ⟨F, R⟩ := st
  simp only [upsertContainer, dropContainer, RefIndex.mk.injEq]
  constructor
  · funext c
    by_cases hc : c = p <;> simp [hc]
  · funext r
    ext x
    simp only [Finset.mem_union]
    by_cases hr : r ∈ F p
    · simp only [if_pos hr, Finset.not_mem_empty, if_neg, if_pos]
      constructor
      · rintro (hx | hx)
        · exact Finset.mem_of_mem_erase hx
        · have := Finset.mem_singleton.mp hx
          subst this
          exact (hInv x r).mpr hr
      · intro hx
        by_cases hxp : x = p
        · exact Or.inr (Finset.mem_singleton.mpr hxp)
        · exact Or.inl (Finset.mem_erase.mpr ⟨hxp, hx⟩)
    · simp [if_neg hr]

/-- `update_asset_path` with no affected containers returns early, changing
nothing (lines 187–189). -/
theorem renameAssetOp_noop (opts : IndexOpts) (ok : String → Bool) (t : ℤ)
    (o n : String) (s : WatchState)
    (h : affectedOf (oldVariantsOf opts o n) s.index = ∅) :
    renameAssetOp opts ok t o n s = s := by
  simp [renameAssetOp, h]

/-- The `on_deleted` handler, for a container with a tracked extension not
on cooldown: it records the pending deletion and drops the container. -/
theorem onDeleted_shape (t : ℤ) (p : String) (s : WatchState)
    (h1 : strLower (pySuffix p) ∈ TRACKED_ASSET_EXTENSIONS)
    (h2 : strLower (pySuffix p) ∈ containerExts)
    (hcd : ¬ t < s.cooldowns p) :
    onDeleted t p s =
      { s with
        index := dropContainer p s.index
        lastDeleted := fun nm =>
          if nm = String.mk (nameOf p.data) then some (p, t)
          else s.lastDeleted nm } := by
  simp only [onDeleted]
  rw [if_pos (Or.inl h1), if_pos ⟨h2, hcd⟩]

/-- C4 counterexample: in a state whose index holds
`mat.mtl ↦ {textures/wall.dds}` (no cooldowns), the delete event on
`mat.mtl` immediately removes `mat.mtl` from
`reverse["textures/wall.dds"]` — so between the delete and the create
event of an atomic editor save, the reference *is* missing from the
reverse map, contradicting the claimed gap-free single update. -/
theorem c4_atomic_save_counterexample :
    "mat.mtl" ∈ wallState.index.reverse "textures/wall.dds" ∧
    "mat.mtl" ∉ (onDeleted 5 "mat.mtl" wallState).index.reverse
      "textures/wall.dds" :=
  ⟨by decide, by decide⟩

/-- C4 amended: a delete+create pair on the same container path `p` (suffix
`.mtl`, not on cooldown, create within one second of the delete) is
processed as drop-then-reindex, **not** as a single update: after the
delete event every reference of `p` is absent from the reverse map, and
once the create event is processed — the move-detection rename finds no
referrer of `p`'s own path and returns early, and the re-parse returns the
same reference set — the index equals the pre-delete index again. -/
theorem c4_atomic_save_amended (opts : IndexOpts) (ok : String → Bool)
    (s : WatchState) (p : String) (t0 t1 : ℤ)
    (hInv : Bidirectional s.index)
    (hsfx : strLower (pySuffix p) = ".mtl")
    (hcd0 : ¬ t0 < s.cooldowns p) (hcd1 : ¬ t1 < s.cooldowns p)
    (ht : t1 - t0 < 1)
    (hself : ∀ v ∈ oldVariantsOf opts p p, s.index.reverse v ⊆ {p})
    (hparse : workerResult s p = some (s.index.forward p)) :
    (∀ r ∈ s.index.forward p,
      p ∉ (onDeleted t0 p s).index.reverse r) ∧
    (onCreated opts ok t1 p (onDeleted t0 p s)).index = s.index := by
  have h1 : strLower (pySuffix p) ∈ TRACKED_ASSET_EXTENSIONS := by
    rw [hsfx]; decide
  have h2 : strLower (pySuffix p) ∈ containerExts := by
    rw [hsfx]; decide
  constructor
  · intro r hr
    rw [onDeleted_shape t0 p s h1 h2 hcd0]
    show p ∉ (dropContainer p s.index).reverse r
    simp only [dropContainer, if_pos hr]
    exact Finset.not_mem_erase p _
  · rw [onDeleted_shape t0 p s h1 h2 hcd0]
    have hA : affectedOf (oldVariantsOf opts p p) (dropContainer p s.index) = ∅ :=
      affected_empty_after_drop opts p s.index hInv hself
    simp only [onCreated, if_true]
    rw [if_pos ht, if_pos h1]
    rw [renameAssetOp_noop opts ok t1 p p _ hA]
    rw [if_pos ⟨h2, hcd1⟩]
    show processContainerFile false (workerResult s p) p (dropContainer p s.index)
      = s.index
    rw [hparse]
    simp only [processContainerFile]
    exact upsert_after_drop p s.index hInv

/-- The wall-scenario index is bidirectionally consistent. -/
theorem wallState_bidirectional : Bidirectional wallState.index := by
  intro c r
  by_cases hc : c = "mat.mtl" <;> by_cases hr : r = "textures/wall.dds" <;>
    simp [wallState, hc, hr]

/-- Witness for C4's amended statement: the atomic save of `mat.mtl`
(delete at t = 5, create at t = 5) drops and then exactly restores the
index of the wall scenario. -/
theorem c4_atomic_save_amended_witness :
    (∀ r ∈ wallState.index.forward "mat.mtl",
      "mat.mtl" ∉ (onDeleted 5 "mat.mtl" wallState).index.reverse r) ∧
    (onCreated {} (fun _ => true) 5 "mat.mtl"
      (onDeleted 5 "mat.mtl" wallState)).index = wallState.index :=
  c4_atomic_save_amended {} (fun _ => true) wallState "mat.mtl" 5 5
    wallState_bidirectional (by decide) (by decide) (by decide) (by decide)
    (by decide) rfl

end CryWatchdog
